import Mathlib

/-!
# Verification of the AwtyFootball statistics aggregator and game-event ledger

This file shallowly embeds the statistics aggregation logic of
`src/frontend/src/components/OverallStatsTable.tsx` (`playerStats`, `sortedStats`),
the partnership aggregation of `src/frontend/src/components/PartnersStatsTable.tsx`
(`normalizePair`, `partnerStats`), and the team-change ledger operations of
`src/frontend/src/components/GameModuleExpanded.tsx` (`handleSwapTeam`,
`handleLeaveTeam`, `handleReturnToTeam`), and proves properties of them.

Modelling conventions:
* JavaScript timestamps (`Date.getTime()`, ISO strings compared after parsing)
  are modelled as `Nat` milliseconds.
* A JS `Record`/`Map` is modelled as an association list in insertion order
  (`mapGet`/`mapSet`/`mapUpdate` mirror `Map.get` / `Map.set` / in-place record
  mutation after a successful `get`).
* Optional fields of the API `Game` object (`teamAssignments?`, `goals?`) are
  `Option`s; the TS truthiness test `!game.teamAssignments` is a `none` test
  (an empty object or array is truthy in JS).
* `Array.prototype.sort(cmp)` (stable, ECMAScript 2019+) is modelled as
  `List.mergeSort` with `le a b := cmp a b ≤ 0`; Lean's `mergeSort` is stable,
  matching the JS semantics for the consistent comparators used by the code.
* Numbers produced by the comparators and by `pointsPerGame` are modelled as
  `ℚ` (the values involved are small integers and exact hundredths).
-/

namespace Awty

/-- A team side, the `'color' | 'white'` union of the source. -/
inductive Team where
  | color
  | white
deriving DecidableEq, Repr

/-- The opposite side, `currentTeam === 'color' ? 'white' : 'color'`. -/
def Team.opposite : Team → Team
  | .color => .white
  | .white => .color

/-- `Player` from `src/frontend/src/api/players.ts`: id, name, optional picture. -/
structure Player where
  id : String
  name : String
  pictureUrl : Option String := none
deriving DecidableEq, Repr

/-- `Goal` from `src/frontend/src/api/games.ts`:
`{scorerId, assisterId: string | null, timestamp, team: 'color'|'white'|null}`. -/
structure Goal where
  scorerId : String
  assisterId : Option String
  timestamp : Nat
  team : Option Team
deriving DecidableEq, Repr

/-- `Game` from `src/frontend/src/api/games.ts`; `teamAssignments` and `goals`
are optional fields, and a `Record<string, 'color'|'white'>` is an insertion
ordered association list with unique keys. -/
structure Game where
  id : String
  createdAt : Nat
  teamAssignments : Option (List (String × Team))
  goals : Option (List Goal)
deriving DecidableEq, Repr

/-! ## Association-list model of JS `Map` / record objects -/

/-- `Map.get k` / `record[k]`: first binding of the key. -/
def mapGet : List (String × β) → String → Option β
  | [], _ => none
  | (k', v) :: rest, k => if k' = k then some v else mapGet rest k

/-- `Map.set k v`: overwrite in place if the key exists, else append. -/
def mapSet : List (String × β) → String → β → List (String × β)
  | [], k, v => [(k, v)]
  | (k', v') :: rest, k, v =>
    if k' = k then (k', v) :: rest else (k', v') :: mapSet rest k v

/-- Mutating the record obtained from a successful `Map.get k` in place. -/
def mapUpdate : List (String × β) → String → (β → β) → List (String × β)
  | [], _, _ => []
  | (k', v) :: rest, k, f =>
    if k' = k then (k', f v) :: rest else (k', v) :: mapUpdate rest k f

/-! ## The per-player stats fold (`playerStats` memo in OverallStatsTable.tsx) -/

/-- The mutable per-player record held in `statsMap` before the derived fields
are filled in: the `player` object and the six counters the game loop touches. -/
structure PSRec where
  player : Player
  gamesPlayed : Nat
  wins : Nat
  losses : Nat
  ties : Nat
  goals : Nat
  assists : Nat
deriving DecidableEq, Repr

/-- The zeroed stats record installed for every known player. -/
def PSRec.init (p : Player) : PSRec :=
  { player := p, gamesPlayed := 0, wins := 0, losses := 0, ties := 0
    goals := 0, assists := 0 }

/-- `players.forEach(player => statsMap.set(player.id, {...zeroed...}))`. -/
def statsInit (players : List Player) : List (String × PSRec) :=
  players.foldl (fun m p => mapSet m p.id (PSRec.init p)) []

/-- `goals.filter(g => g.team === t).length`. -/
def teamGoalCount (gls : List Goal) (t : Team) : Nat :=
  (gls.filter (fun g => g.team = some t)).length

/-- The win/loss/tie crediting for one team assignment
(lines 132–146 of OverallStatsTable.tsx): `gamesPlayed++` followed by the
`isTie` / `colorWon` / `whiteWon` branch chain. -/
def applyResult (team : Team) (cg wg : Nat) (r : PSRec) : PSRec :=
  let r := { r with gamesPlayed := r.gamesPlayed + 1 }
  if cg = wg then { r with ties := r.ties + 1 }
  else if team = .color ∧ cg > wg then { r with wins := r.wins + 1 }
  else if team = .color ∧ wg > cg then { r with losses := r.losses + 1 }
  else if team = .white ∧ wg > cg then { r with wins := r.wins + 1 }
  else if team = .white ∧ cg > wg then { r with losses := r.losses + 1 }
  else r

/-- One step of `Object.entries(teamAssignments).forEach`: skip unknown
players, otherwise credit the game and the result and mark the player as
having participated. -/
def processAssignment (cg wg : Nat) (acc : List (String × PSRec) × List String)
    (pt : String × Team) : List (String × PSRec) × List String :=
  match mapGet acc.1 pt.1 with
  | none => acc
  | some _ => (mapUpdate acc.1 pt.1 (applyResult pt.2 cg wg), pt.1 :: acc.2)

/-- One step of `goals.forEach` (lines 150–182): credit the scorer, topping up
`gamesPlayed` if the scorer was not counted via a team assignment; an unknown
scorer aborts the whole iteration (the early `return` also skips the assist);
then credit the assister the same way, dropping an unknown assister. -/
def processGoal (acc : List (String × PSRec) × List String) (goal : Goal) :
    List (String × PSRec) × List String :=
  match mapGet acc.1 goal.scorerId with
  | none => acc
  | some _ =>
    let m := mapUpdate acc.1 goal.scorerId (fun r => { r with goals := r.goals + 1 })
    let acc :=
      if goal.scorerId ∈ acc.2 then (m, acc.2)
      else (mapUpdate m goal.scorerId (fun r => { r with gamesPlayed := r.gamesPlayed + 1 }),
            goal.scorerId :: acc.2)
    match goal.assisterId with
    | none => acc
    | some aid =>
      match mapGet acc.1 aid with
      | none => acc
      | some _ =>
        let m := mapUpdate acc.1 aid (fun r => { r with assists := r.assists + 1 })
        if aid ∈ acc.2 then (m, acc.2)
        else (mapUpdate m aid (fun r => { r with gamesPlayed := r.gamesPlayed + 1 }),
              aid :: acc.2)

/-- Processing one game of the main loop (`games.forEach`, lines 106–183):
games whose `teamAssignments` or `goals` field is absent are skipped, otherwise
the team assignments and then the goals are folded over the stats map, with a
fresh `playersInGame` set. -/
def processGame (m : List (String × PSRec)) (g : Game) : List (String × PSRec) :=
  match g.teamAssignments, g.goals with
  | some ta, some gls =>
    let cg := teamGoalCount gls .color
    let wg := teamGoalCount gls .white
    let acc := ta.foldl (processAssignment cg wg) (m, [])
    (gls.foldl processGoal acc).1
  | _, _ => m

/-! ## Form and the finalization pass -/

/-- A `'W' | 'L' | 'T'` form entry. -/
inductive FormResult where
  | W
  | L
  | T
deriving DecidableEq, Repr

/-- The result pushed for one game of the form walk (lines 231–242), the same
win/tie/loss comparison as the main fold. -/
def formResult (team : Team) (cg wg : Nat) : FormResult :=
  if cg = wg then .T
  else if team = .color ∧ cg > wg then .W
  else if team = .color ∧ wg > cg then .L
  else if team = .white ∧ wg > cg then .W
  else .L

/-- The comparator of the `sortedGames` sort (lines 205–209), newest first:
`a` may precede `b` iff `dateB - dateA ≤ 0`. -/
def gameDateDesc (a b : Game) : Bool :=
  b.createdAt ≤ a.createdAt

/-- The form-collection loop for one player (lines 216–248): walk the games
newest first, skip games with absent fields and games without an assignment
for the player, push a result otherwise, and break once 5 results are held. -/
def formLoop (pid : String) : List Game → List FormResult → List FormResult
  | [], acc => acc
  | g :: rest, acc =>
    match g.teamAssignments, g.goals with
    | some ta, some gls =>
      match mapGet ta pid with
      | none => formLoop pid rest acc
      | some team =>
        let acc := acc ++ [formResult team (teamGoalCount gls .color) (teamGoalCount gls .white)]
        if acc.length ≥ 5 then acc else formLoop pid rest acc
    | _, _ => formLoop pid rest acc

/-- `Math.round` for the non-negative values produced here: `⌊q + 1/2⌋`. -/
def jsRound (q : ℚ) : ℤ := ⌊q + 1 / 2⌋

/-- The finished view row of the stats table. -/
structure PlayerStats where
  player : Player
  gamesPlayed : Nat
  wins : Nat
  losses : Nat
  ties : Nat
  points : Nat
  pointsPerGame : ℚ
  goalInvolvements : Nat
  goals : Nat
  assists : Nat
  score : Nat
  form : List FormResult
  formWins : ℤ
deriving DecidableEq, Repr

/-- The finalization pass for one map entry (lines 186–201 and 212–257):
points, points per game rounded to two decimals, goal involvements, score, and
the reversed 5-game form with its win-minus-loss count. -/
def finalizeRow (pid : String) (r : PSRec) (sortedGames : List Game) : PlayerStats :=
  let points := r.wins * 3 + r.ties * 1
  let ppg : ℚ :=
    if r.gamesPlayed > 0 then (jsRound ((points : ℚ) / (r.gamesPlayed : ℚ) * 100) : ℚ) / 100
    else 0
  let form := (formLoop pid sortedGames []).reverse
  { player := r.player
    gamesPlayed := r.gamesPlayed
    wins := r.wins
    losses := r.losses
    ties := r.ties
    points := points
    pointsPerGame := ppg
    goalInvolvements := r.goals + r.assists
    goals := r.goals
    assists := r.assists
    score := points + r.gamesPlayed + r.goals + r.assists
    form := form
    formWins := (form.filter (· = FormResult.W)).length - (form.filter (· = FormResult.L)).length }

/-- The whole `playerStats` memo: initialize a record per player, fold all
games, finalize every entry against the date-sorted game list, and keep the
players with at least one game played. -/
def playerStats (players : List Player) (games : List Game) : List PlayerStats :=
  let m := games.foldl processGame (statsInit players)
  let sortedGames := games.mergeSort gameDateDesc
  (m.map (fun kv => finalizeRow kv.1 kv.2 sortedGames)).filter (fun s => s.gamesPlayed > 0)

/-! ## Sorting of the stats table (`sortedStats` memo, lines 263–347) -/

/-- The sortable columns of the table. -/
inductive SortColumn where
  | points
  | gamesPlayed
  | pointsPerGame
  | goalInvolvements
  | goals
  | assists
  | formWins
deriving DecidableEq, Repr

/-- Sort direction. -/
inductive SortDirection where
  | asc
  | desc
deriving DecidableEq, Repr

/-- The ascending comparator of the `switch (sortColumn)` block: primary
difference, then the documented tie-break chain of each column. -/
def statCmpAsc (col : SortColumn) (a b : PlayerStats) : ℚ :=
  match col with
  | .points =>
    let c : ℚ := (a.points : ℚ) - (b.points : ℚ)
    if c = 0 then
      let c := a.pointsPerGame - b.pointsPerGame
      if c = 0 then
        let c : ℚ := (a.goalInvolvements : ℚ) - (b.goalInvolvements : ℚ)
        if c = 0 then (a.goals : ℚ) - (b.goals : ℚ) else c
      else c
    else c
  | .pointsPerGame =>
    let c := a.pointsPerGame - b.pointsPerGame
    if c = 0 then
      let c : ℚ := (a.goalInvolvements : ℚ) - (b.goalInvolvements : ℚ)
      if c = 0 then (a.goals : ℚ) - (b.goals : ℚ) else c
    else c
  | .gamesPlayed =>
    let c : ℚ := (a.gamesPlayed : ℚ) - (b.gamesPlayed : ℚ)
    if c = 0 then
      let c : ℚ := (a.points : ℚ) - (b.points : ℚ)
      if c = 0 then (a.goalInvolvements : ℚ) - (b.goalInvolvements : ℚ) else c
    else c
  | .goalInvolvements =>
    let c : ℚ := (a.goalInvolvements : ℚ) - (b.goalInvolvements : ℚ)
    if c = 0 then
      let c : ℚ := (a.goals : ℚ) - (b.goals : ℚ)
      if c = 0 then (a.points : ℚ) - (b.points : ℚ) else c
    else c
  | .goals =>
    let c : ℚ := (a.goals : ℚ) - (b.goals : ℚ)
    if c = 0 then
      let c : ℚ := (a.assists : ℚ) - (b.assists : ℚ)
      if c = 0 then (a.points : ℚ) - (b.points : ℚ) else c
    else c
  | .assists =>
    let c : ℚ := (a.assists : ℚ) - (b.assists : ℚ)
    if c = 0 then
      let c : ℚ := (a.goals : ℚ) - (b.goals : ℚ)
      if c = 0 then (a.points : ℚ) - (b.points : ℚ) else c
    else c
  | .formWins =>
    let c : ℚ := (a.formWins : ℚ) - (b.formWins : ℚ)
    if c = 0 then
      let c : ℚ := (a.points : ℚ) - (b.points : ℚ)
      if c = 0 then (a.goalInvolvements : ℚ) - (b.goalInvolvements : ℚ) else c
    else c

/-- `return sortDirection === 'asc' ? comparison : -comparison`. -/
def statCmp (col : SortColumn) (dir : SortDirection) (a b : PlayerStats) : ℚ :=
  match dir with
  | .asc => statCmpAsc col a b
  | .desc => -(statCmpAsc col a b)

/-- `[...playerStats].sort(comparator)` for the active column and direction. -/
def sortedStats (players : List Player) (games : List Game)
    (col : SortColumn) (dir : SortDirection) : List PlayerStats :=
  (playerStats players games).mergeSort (fun a b => statCmp col dir a b ≤ 0)

/-! ## The partnership fold (PartnersStatsTable.tsx) -/

/-- `normalizePair` (lines 17–19): the lexicographically smaller id first. -/
def normalizePair (player1Id player2Id : String) : String :=
  if player1Id < player2Id then player1Id ++ "-" ++ player2Id
  else player2Id ++ "-" ++ player1Id

/-- A row of the partners table: both resolved players and the count. -/
structure PartnerPair where
  player1 : Player
  player2 : Player
  contributions : Nat
deriving DecidableEq, Repr

/-- The accumulated record per normalized pair key. -/
structure PairRec where
  player1Id : String
  player2Id : String
  count : Nat
deriving DecidableEq, Repr

/-- One step of the inner `game.goals.forEach` (lines 34–52): a goal with a
truthy `assisterId` and `scorerId` bumps the counter of its normalized pair,
creating the record (smaller id first) on first sight. -/
def processPairGoal (pm : List (String × PairRec)) (goal : Goal) :
    List (String × PairRec) :=
  match goal.assisterId with
  | none => pm
  | some aid =>
    if aid ≠ "" ∧ goal.scorerId ≠ "" then
      let pairKey := normalizePair goal.scorerId aid
      match mapGet pm pairKey with
      | some _ => mapUpdate pm pairKey (fun r => { r with count := r.count + 1 })
      | none =>
        let player1Id := if goal.scorerId < aid then goal.scorerId else aid
        let player2Id := if goal.scorerId < aid then aid else goal.scorerId
        mapSet pm pairKey { player1Id := player1Id, player2Id := player2Id, count := 1 }
    else pm

/-- The `partnerStats` memo (lines 23–66): fold every goal of every game with
a present `goals` field, resolve both players of each pair (rows whose players
are missing from the player list are dropped), and sort by descending count. -/
def partnerStats (players : List Player) (games : List Game) : List PartnerPair :=
  let allPlayersMap := players.foldl (fun m p => mapSet m p.id p) []
  let pm := games.foldl
    (fun pm g => match g.goals with
      | none => pm
      | some gls => gls.foldl processPairGoal pm) []
  let pairs := pm.filterMap (fun kv =>
    match mapGet allPlayersMap kv.2.player1Id, mapGet allPlayersMap kv.2.player2Id with
    | some p1, some p2 => some { player1 := p1, player2 := p2, contributions := kv.2.count }
    | _, _ => none)
  pairs.mergeSort (fun a b => b.contributions ≤ a.contributions)

/-! ## The game-event ledger (GameModuleExpanded.tsx) -/

/-- `'leave' | 'swap'`. -/
inductive TCType where
  | leave
  | swap
deriving DecidableEq, Repr

/-- An entry of the component's `teamChanges` state (line 43): the resolved
player object, a timestamp, the team, the type, and for swaps the previous and
new team. -/
structure TCEntry where
  player : Player
  timestamp : Nat
  team : Team
  type : TCType
  previousTeam : Option Team := none
  newTeam : Option Team := none
deriving DecidableEq, Repr

/-- An entry of the component's `goals` state (line 42): resolved players. -/
structure LGoal where
  scorer : Player
  assister : Option Player
  timestamp : Nat
  team : Option Team
deriving DecidableEq, Repr

/-- The ledger-relevant component state of `GameModuleExpanded`. -/
structure LedgerState where
  allPlayers : List Player
  playerTeams : List (String × Team)
  leftPlayers : List String
  goals : List LGoal
  teamChanges : List TCEntry
deriving DecidableEq, Repr

/-- `[...tc].reverse().findIndex(pred)` translated back to an index into `tc`
(`tc.length - 1 - lastSwapIndex`), i.e. the index of the last match. -/
def revFindIdx (tc : List TCEntry) (pred : TCEntry → Bool) : Option Nat :=
  (tc.reverse.findIdx? pred).map (fun i => tc.length - 1 - i)

/-- `handleSwapTeam` (lines 421–463): flip the player's team; append a swap
entry unless the last swap entry of this player is being exactly reverted
(`lastSwap.previousTeam === newTeam`) and no goal at all has a timestamp after
that entry, in which case that entry is deleted instead. -/
def handleSwapTeam (st : LedgerState) (playerId : String) (now : Nat) : LedgerState :=
  match mapGet st.playerTeams playerId with
  | none => st
  | some currentTeam =>
    let newTeam := currentTeam.opposite
    let tc := st.teamChanges
    let tc' :=
      match st.allPlayers.find? (fun p => p.id = playerId) with
      | none => tc
      | some player =>
        let newEntry : TCEntry :=
          { player := player, timestamp := now, team := newTeam
            previousTeam := some currentTeam, newTeam := some newTeam, type := .swap }
        match revFindIdx tc (fun e => e.player.id = playerId ∧ e.type = .swap) with
        | some actualIndex =>
          match tc[actualIndex]? with
          | some lastSwap =>
            let isReverting := lastSwap.previousTeam = some newTeam
            let goalAfterLastSwap := st.goals.any (fun g => g.timestamp > lastSwap.timestamp)
            if isReverting ∧ ¬goalAfterLastSwap then
              tc.take actualIndex ++ tc.drop (actualIndex + 1)
            else tc ++ [newEntry]
          | none => tc ++ [newEntry]
        | none => tc ++ [newEntry]
    { st with teamChanges := tc'
              playerTeams := mapSet st.playerTeams playerId newTeam }

/-- `handleLeaveTeam` (lines 465–476): mark the player as left; if the player
object and a current team exist, log a leave entry capturing that team. -/
def handleLeaveTeam (st : LedgerState) (playerId : String) (now : Nat) : LedgerState :=
  let left := playerId :: st.leftPlayers
  match st.allPlayers.find? (fun p => p.id = playerId), mapGet st.playerTeams playerId with
  | some player, some team =>
    { st with leftPlayers := left
              teamChanges := st.teamChanges ++
                [{ player := player, timestamp := now, team := team, type := .leave }] }
  | _, _ => { st with leftPlayers := left }

/-- `handleReturnToTeam` (lines 478–487): unmark the player as left and drop
every team-change entry belonging to the player. -/
def handleReturnToTeam (st : LedgerState) (playerId : String) : LedgerState :=
  { st with leftPlayers := st.leftPlayers.filter (fun p => p ≠ playerId)
            teamChanges := st.teamChanges.filter (fun e => e.player.id ≠ playerId) }

/-! ## Concrete fixtures used by the end-to-end scenarios -/

/-- Fixture player P1. -/
def P1 : Player := { id := "p1", name := "P1" }

/-- Fixture player P2. -/
def P2 : Player := { id := "p2", name := "P2" }

/-- The end-to-end scenario game: `teamAssignments = {P1: color, P2: white}`,
`goals = [{scorer: P1, assister: null, team: color},
{scorer: P2, assister: P1, team: white}]`. -/
def scenarioGame : Game :=
  { id := "g1", createdAt := 10
    teamAssignments := some [("p1", Team.color), ("p2", Team.white)]
    goals := some
      [ { scorerId := "p1", assisterId := none, timestamp := 1, team := some Team.color }
      , { scorerId := "p2", assisterId := some "p1", timestamp := 2, team := some Team.white } ] }

/-- The expected stats row of P1 in the end-to-end scenario. -/
def scenarioRowP1 : PlayerStats :=
  { player := P1, gamesPlayed := 1, wins := 0, losses := 0, ties := 1
    points := 1, pointsPerGame := 1, goalInvolvements := 2, goals := 1, assists := 1
    score := 4, form := [FormResult.T], formWins := 0 }

/-- The expected stats row of P2 in the end-to-end scenario. -/
def scenarioRowP2 : PlayerStats :=
  { player := P2, gamesPlayed := 1, wins := 0, losses := 0, ties := 1
    points := 1, pointsPerGame := 1, goalInvolvements := 1, goals := 1, assists := 0
    score := 3, form := [FormResult.T], formWins := 0 }

/-! # Theorems -/

/-- Evaluation of the stats fold on the end-to-end scenario fixture. -/
theorem scenario_rows :
    playerStats [P1, P2] [scenarioGame] = [scenarioRowP1, scenarioRowP2] := by
  simp only [playerStats, List.mergeSort_singleton]
  simp +decide only [statsInit, mapSet, mapGet, mapUpdate, processGame, processAssignment,
    processGoal, applyResult, teamGoalCount, formLoop, formResult, finalizeRow,
    scenarioGame, P1, P2, PSRec.init, scenarioRowP1, scenarioRowP2,
    List.map, List.filter, List.foldl, List.mem_cons, List.mem_singleton,
    List.length, List.reverse, List.append, List.filter_cons, List.filter_nil]
  norm_num [jsRound, scenarioRowP1, scenarioRowP2, P1, P2]

/-- Evaluation of the partnership fold on the end-to-end scenario fixture. -/
theorem scenario_pairs :
    partnerStats [P1, P2] [scenarioGame] =
      [{ player1 := P1, player2 := P2, contributions := 1 }] := by
  have h21 : ¬ ("p2" : String) < "p1" := by
    rw [String.lt_iff_toList_lt]; decide
  simp +decide only [partnerStats, processPairGoal, normalizePair, mapGet, mapSet,
    scenarioGame, P1, P2, h21, List.foldl, List.filterMap, List.mergeSort_singleton,
    ite_true, ite_false]

/-- **C1.** End-to-end scenario: with `teamAssignments = {P1: color, P2: white}`
and goals `[{scorer: P1, assister: null, team: color}, {scorer: P2, assister:
P1, team: white}]`, the goal counts are color = 1 and white = 1 (a tie); P1's
row has gamesPlayed 1, ties 1, goals 1, assists 1, points 1; P2's row has
gamesPlayed 1, ties 1, goals 1, assists 0, points 1; and the partnership fold
yields exactly one pair {P1, P2} with count 1 — P1's unassisted goal
contributes nothing to partnerships. -/
theorem scenario_end_to_end :
    teamGoalCount (scenarioGame.goals.getD []) Team.color = 1 ∧
    teamGoalCount (scenarioGame.goals.getD []) Team.white = 1 ∧
    playerStats [P1, P2] [scenarioGame] = [scenarioRowP1, scenarioRowP2] ∧
    partnerStats [P1, P2] [scenarioGame] =
      [{ player1 := P1, player2 := P2, contributions := 1 }] :=
  ⟨by decide, by decide, scenario_rows, scenario_pairs⟩

/-- Fixture game with a self-assisted goal (`assisterId = scorerId = "p1"`). -/
def selfAssistGame : Game :=
  { id := "g", createdAt := 1, teamAssignments := some [("p1", Team.color)]
    goals := some
      [ { scorerId := "p1", assisterId := some "p1", timestamp := 1, team := some Team.color } ] }

/-- **C8.** Pair-key normalization is commutative: `normalizePair a b =
normalizePair b a` for all ids, the lexicographically smaller id stored first;
and a goal whose `assisterId` equals its `scorerId` does not crash the
partnership fold — on the self-assist fixture it produces the well-defined
output `[{P1, P1, 1}]` (the embedding is a total function). -/
theorem normalizePair_comm_and_self_assist_total :
    (∀ a b : String, normalizePair a b = normalizePair b a) ∧
    partnerStats [P1] [selfAssistGame] =
      [{ player1 := P1, player2 := P1, contributions := 1 }] := by
  constructor
  · intro a b
    unfold normalizePair
    rcases lt_trichotomy a b with h | rfl | h
    · rw [if_pos h, if_neg (asymm h)]
    · rfl
    · rw [if_neg (asymm h), if_pos h]
  · have h11 : ¬ ("p1" : String) < "p1" := lt_irrefl _
    simp +decide only [partnerStats, processPairGoal, normalizePair, mapGet, mapSet,
      selfAssistGame, P1, h11, List.foldl, List.filterMap, List.mergeSort_singleton,
      ite_true, ite_false]

/-! ## The ledger scenarios -/

/-- Base ledger state: P1 on color, P2 on white, no goals, no changes. -/
def baseLedger : LedgerState :=
  { allPlayers := [P1, P2], playerTeams := [("p1", Team.color), ("p2", Team.white)]
    leftPlayers := [], goals := [], teamChanges := [] }

/-- P1 swaps color→white at time 1, then leaves at time 9: two ledger entries. -/
def swapLeaveSt : LedgerState :=
  handleLeaveTeam (handleSwapTeam baseLedger "p1" 1) "p1" 9

/-- **C9.** `return(player)` removes every TeamChange entry for that player —
swaps as well as leaves, not just the most recent — while the remaining
entries (order and multiplicity), the team assignments and the goal list are
left unchanged; in particular a player with one swap followed by one leave has
both entries gone after `return`. -/
theorem return_removes_all_entries :
    (∀ (st : LedgerState) (pid : String),
      (∀ e ∈ (handleReturnToTeam st pid).teamChanges, e.player.id ≠ pid) ∧
      (handleReturnToTeam st pid).teamChanges.Sublist st.teamChanges ∧
      (∀ e : TCEntry, e.player.id ≠ pid →
        (handleReturnToTeam st pid).teamChanges.count e = st.teamChanges.count e) ∧
      (handleReturnToTeam st pid).playerTeams = st.playerTeams ∧
      (handleReturnToTeam st pid).goals = st.goals ∧
      (handleReturnToTeam st pid).allPlayers = st.allPlayers) ∧
    swapLeaveSt.teamChanges.length = 2 ∧
    (handleReturnToTeam swapLeaveSt "p1").teamChanges = [] := by
  refine ⟨fun st pid => ⟨?_, ?_, ?_, rfl, rfl, rfl⟩, by decide, by decide⟩
  · intro e he
    have := List.of_mem_filter he
    simpa using this
  · exact List.filter_sublist _
  · intro e he
    exact List.count_filter (by simpa using he)

/-- Witness for C9: an entry of another player survives `return` with its
multiplicity intact. -/
theorem return_removes_all_entries_witness :
    (handleReturnToTeam swapLeaveSt "p2").teamChanges.count
        { player := P1, timestamp := 1, team := Team.white, type := TCType.swap
          previousTeam := some Team.color, newTeam := some Team.white } =
      swapLeaveSt.teamChanges.count
        { player := P1, timestamp := 1, team := Team.white, type := TCType.swap
          previousTeam := some Team.color, newTeam := some Team.white } :=
  (return_removes_all_entries.1 swapLeaveSt "p2").2.2.1 _ (by decide)

/-! ## C2: swap coalescing -/

/-- Split a list around its *last* element satisfying `p`:
`lastSplit? p l = some (b, x, a)` with `l = b ++ x :: a`, `p x`, and no match
in `a`. -/
def lastSplit? (p : α → Bool) : List α → Option (List α × α × List α)
  | [] => none
  | e :: rest =>
    match lastSplit? p rest with
    | some (b, x, a) => some (e :: b, x, a)
    | none => if p e then some ([], e, rest) else none

theorem lastSplit?_none_forall {p : α → Bool} :
    ∀ {tc : List α}, lastSplit? p tc = none → ∀ y ∈ tc, ¬ p y := by
  intro tc
  induction tc with
  | nil => intro _ y hy; cases hy
  | cons e rest ih =>
    intro h y hy
    simp only [lastSplit?] at h
    rcases hr : lastSplit? p rest with _ | ⟨b2, x2, a2⟩
    · simp only [hr] at h
      rcases List.mem_cons.mp hy with rfl | hy
      · intro hp
        simp [if_pos hp] at h
      · exact ih hr y hy
    · simp [hr] at h

theorem lastSplit?_eq_some {p : α → Bool} :
    ∀ {tc : List α} {b : List α} {x : α} {a : List α},
      lastSplit? p tc = some (b, x, a) →
      tc = b ++ x :: a ∧ p x ∧ ∀ y ∈ a, ¬ p y := by
  intro tc
  induction tc with
  | nil => intro b x a h; simp [lastSplit?] at h
  | cons e rest ih =>
    intro b x a h
    simp only [lastSplit?] at h
    rcases hr : lastSplit? p rest with _ | ⟨b2, x2, a2⟩
    · simp only [hr] at h
      by_cases hp : p e
      · simp only [if_pos hp, Option.some.injEq, Prod.mk.injEq] at h
        obtain ⟨hb, hx, ha⟩ := h
        subst hb; subst hx; subst ha
        exact ⟨rfl, hp, lastSplit?_none_forall hr⟩
      · simp [if_neg hp] at h
    · simp only [hr, Option.some.injEq, Prod.mk.injEq] at h
      obtain ⟨hb, hx, ha⟩ := h
      subst hb; subst hx; subst ha
      obtain ⟨h1, h2, h3⟩ := ih hr
      exact ⟨by rw [h1]; rfl, h2, h3⟩

theorem lastSplit?_eq_none {p : α → Bool} :
    ∀ {tc : List α}, lastSplit? p tc = none ↔ ∀ y ∈ tc, ¬ p y := by
  intro tc
  induction tc with
  | nil => simp [lastSplit?]
  | cons e rest ih =>
    simp only [lastSplit?]
    rcases hr : lastSplit? p rest with _ | ⟨b, x, a⟩
    · constructor
      · intro hnone y hy
        rcases List.mem_cons.mp hy with rfl | hy
        · intro hp
          simp [if_pos hp] at hnone
        · exact (ih.mp hr) y hy
      · intro hall
        rw [if_neg]
        simpa using hall e (List.mem_cons_self e rest)
    · constructor
      · intro hc
        cases hc
      · intro hall
        exfalso
        obtain ⟨h1, h2, -⟩ := lastSplit?_eq_some hr
        exact hall x (List.mem_cons_of_mem _ (by rw [h1]; simp)) h2

theorem findIdx?_append_all_neg {p : α → Bool} :
    ∀ (l1 l2 : List α) (i : Nat), (∀ y ∈ l1, ¬ p y) →
      (l1 ++ l2).findIdx? p i = l2.findIdx? p (i + l1.length) := by
  intro l1
  induction l1 with
  | nil => intro l2 i _; simp
  | cons e l1 ih =>
    intro l2 i h
    have he : ¬ p e := h e (List.mem_cons_self e l1)
    simp only [List.cons_append, List.findIdx?_cons, Bool.not_eq_true] at he ⊢
    rw [he]
    simp only [Bool.false_eq_true, if_false]
    rw [ih l2 (i + 1) (fun y hy => h y (List.mem_cons_of_mem _ hy))]
    congr 1
    simp [List.length_cons]
    omega

theorem revFindIdx_of_lastSplit_none {p : TCEntry → Bool} {tc : List TCEntry}
    (h : lastSplit? p tc = none) : revFindIdx tc p = none := by
  have hall := lastSplit?_none_forall h
  unfold revFindIdx
  rw [List.findIdx?_eq_none_iff.mpr (fun y hy => by
    simpa using hall y (List.mem_reverse.mp hy))]
  rfl

theorem revFindIdx_of_lastSplit_some {p : TCEntry → Bool} {tc b a : _} {x : TCEntry}
    (h : lastSplit? p tc = some (b, x, a)) : revFindIdx tc p = some b.length := by
  obtain ⟨htc, hx, hall⟩ := lastSplit?_eq_some h
  unfold revFindIdx
  subst htc
  have hrev : (b ++ x :: a).reverse = a.reverse ++ x :: b.reverse := by
    simp
  rw [hrev]
  rw [findIdx?_append_all_neg _ _ _ (fun y hy => hall y (List.mem_reverse.mp hy))]
  simp only [List.findIdx?_cons, hx, if_pos]
  simp only [Option.map_some', Option.some.injEq, List.length_append, List.length_cons,
    List.length_reverse, Nat.zero_add]
  omega

/-- Claim-side statement of the (amended) swap rule for the team-change list:
append a swap entry for the player, unless the *most recent* swap entry of
this player has `previousTeam` equal to the destination and *no goal at all*
in the game has a timestamp after that entry, in which case that entry is
deleted and nothing is appended. -/
def swapTeamChangesSpec (st : LedgerState) (pid : String) (now : Nat) : List TCEntry :=
  match mapGet st.playerTeams pid with
  | none => st.teamChanges
  | some currentTeam =>
    match st.allPlayers.find? (fun p => p.id = pid) with
    | none => st.teamChanges
    | some player =>
      let newTeam := currentTeam.opposite
      let entry : TCEntry :=
        { player := player, timestamp := now, team := newTeam
          previousTeam := some currentTeam, newTeam := some newTeam, type := .swap }
      match lastSplit? (fun e => e.player.id = pid ∧ e.type = .swap) st.teamChanges with
      | some (b, x, a) =>
        if x.previousTeam = some newTeam ∧ st.goals.all (fun g => g.timestamp ≤ x.timestamp)
        then b ++ a
        else st.teamChanges ++ [entry]
      | none => st.teamChanges ++ [entry]

/-- The coded swap handler produces exactly the team-change list described by
the amended rule. -/
theorem handleSwapTeam_teamChanges (st : LedgerState) (pid : String) (now : Nat) :
    (handleSwapTeam st pid now).teamChanges = swapTeamChangesSpec st pid now := by
  unfold handleSwapTeam swapTeamChangesSpec
  rcases hteam : mapGet st.playerTeams pid with _ | ct
  · rfl
  dsimp only
  rcases hfind : st.allPlayers.find? (fun p => p.id = pid) with _ | player <;>
    simp only [hfind]
  rcases hls : lastSplit? (fun e => decide (e.player.id = pid ∧ e.type = TCType.swap))
      st.teamChanges with _ | ⟨b, x, a⟩
  · rw [revFindIdx_of_lastSplit_none hls, hls]
  · obtain ⟨htc, hx, -⟩ := lastSplit?_eq_some hls
    have hget : st.teamChanges[b.length]? = some x := by
      rw [htc, List.getElem?_append_right (Nat.le_refl _)]
      simp
    rw [revFindIdx_of_lastSplit_some hls, hls]
    dsimp only
    rw [hget]
    dsimp only
    have hdrop : (b ++ x :: a).drop (b.length + 1) = a := by
      have h1 : b ++ x :: a = (b ++ [x]) ++ a := by simp
      have h2 : b.length + 1 = (b ++ [x]).length := by simp
      rw [h1, h2, List.drop_left]
    have hcond : (¬ (st.goals.any fun g => decide (g.timestamp > x.timestamp)) = true) ↔
        ((st.goals.all fun g => decide (g.timestamp ≤ x.timestamp)) = true) := by
      simp only [List.any_eq_true, List.all_eq_true, decide_eq_true_eq, not_exists, not_and,
        gt_iff_lt, not_lt]
    by_cases hc : x.previousTeam = some ct.opposite ∧
        (st.goals.all fun g => decide (g.timestamp ≤ x.timestamp)) = true
    · rw [if_pos ⟨hc.1, hcond.mpr hc.2⟩, if_pos hc, htc, List.take_left, hdrop]
    · rw [if_neg (fun hcontra => hc ⟨hcontra.1, hcond.mp hcontra.2⟩), if_neg hc]

/-- Ledger state after P1's color→white swap with one intervening goal by P2
(timestamp 5, after the swap entry's timestamp 1). -/
def interveningGoalSt : LedgerState :=
  { handleSwapTeam baseLedger "p1" 1 with
    goals := [{ scorer := P2, assister := none, timestamp := 5, team := some Team.white }] }

/-- **C2 (amended).** `swap(player)` appends a `TeamChange{type: swap}`
recording `previousTeam` and `newTeam`, unless the swap exactly reverts the
most recent swap entry of this player (destination equals that entry's
`previousTeam`) and *no goal at all* (by any player) has been scored since
that entry's timestamp — in which case that entry is deleted and nothing is
appended. In particular color→white then immediately white→color with no
intervening goal leaves zero entries, and with an intervening goal both swaps
are logged. -/
theorem swap_coalescing_amended :
    (∀ (st : LedgerState) (pid : String) (now : Nat),
      (handleSwapTeam st pid now).teamChanges = swapTeamChangesSpec st pid now) ∧
    (handleSwapTeam (handleSwapTeam baseLedger "p1" 1) "p1" 2).teamChanges = [] ∧
    (handleSwapTeam interveningGoalSt "p1" 7).teamChanges.length = 2 :=
  ⟨handleSwapTeam_teamChanges, by decide, by decide⟩

/-- Ledger state refuting C2 as stated: P1 swapped color→white at time 1
(one unresolved swap entry), and the only goal since then was scored by P2
with no assister and no team label — no goal "for P1" in any sense. -/
def cexSwapSt : LedgerState :=
  { allPlayers := [P1, P2]
    playerTeams := [("p1", Team.white), ("p2", Team.white)]
    leftPlayers := []
    goals := [{ scorer := P2, assister := none, timestamp := 2, team := none }]
    teamChanges := [{ player := P1, timestamp := 1, team := Team.white, type := TCType.swap
                      previousTeam := some Team.color, newTeam := some Team.white }] }

/-- **Counterexample to C2 as stated.** Swapping P1 back (white→color, the
exact revert of the unresolved swap) while no goal has been scored *for P1*
since that swap — the only goal is P2's, unassisted, team `null` — still logs
a second entry: the handler checks for *any* goal after the prior swap, not a
goal for this player, so the claim's predicted deletion (zero entries) does
not happen. -/
theorem swap_coalescing_cex :
    (∀ g ∈ cexSwapSt.goals, g.scorer.id ≠ "p1" ∧ g.assister = none ∧ g.team = none) ∧
    cexSwapSt.teamChanges.map (fun e => (e.player.id, e.type, e.previousTeam, e.timestamp)) =
      [("p1", TCType.swap, some Team.color, 1)] ∧
    mapGet cexSwapSt.playerTeams "p1" = some Team.white ∧
    (∀ g ∈ cexSwapSt.goals, g.timestamp > 1) ∧
    (handleSwapTeam cexSwapSt "p1" 3).teamChanges.length = 2 := by
  refine ⟨by decide, by decide, by decide, by decide, by decide⟩

/-! ## C5: points and points-per-game -/

/-- Every output row of the stats fold is a finalized map entry, so its
points and points-per-game satisfy the finalization formulas. -/
theorem playerStats_row_fields {ps : List Player} {gs : List Game} {row : PlayerStats}
    (hrow : row ∈ playerStats ps gs) :
    row.points = 3 * row.wins + row.ties ∧
    (0 < row.gamesPlayed →
      row.pointsPerGame = (jsRound ((row.points : ℚ) / (row.gamesPlayed : ℚ) * 100) : ℚ) / 100) ∧
    (row.gamesPlayed = 0 → row.pointsPerGame = 0) := by
  unfold playerStats at hrow
  obtain ⟨hmem, -⟩ := List.mem_filter.mp hrow
  obtain ⟨kv, -, heq⟩ := List.mem_map.mp hmem
  subst heq
  refine ⟨by simp only [finalizeRow]; omega, ?_, ?_⟩
  · intro hgp
    simp only [finalizeRow] at hgp ⊢
    rw [if_pos hgp]
  · intro hgp
    simp only [finalizeRow] at hgp ⊢
    rw [if_neg (by omega)]

/-- A four-game fixture in which P1 records 2 wins, 1 tie and 1 loss. -/
def c5Games : List Game :=
  [ { id := "w1", createdAt := 1
      teamAssignments := some [("p1", Team.color), ("p2", Team.white)]
      goals := some [{ scorerId := "p1", assisterId := none, timestamp := 1, team := some Team.color }] }
  , { id := "w2", createdAt := 2
      teamAssignments := some [("p1", Team.color), ("p2", Team.white)]
      goals := some [{ scorerId := "p1", assisterId := none, timestamp := 1, team := some Team.color }] }
  , { id := "t1", createdAt := 3
      teamAssignments := some [("p1", Team.color), ("p2", Team.white)]
      goals := some [{ scorerId := "p1", assisterId := none, timestamp := 1, team := some Team.color },
                     { scorerId := "p2", assisterId := none, timestamp := 2, team := some Team.white }] }
  , { id := "l1", createdAt := 4
      teamAssignments := some [("p1", Team.color), ("p2", Team.white)]
      goals := some [{ scorerId := "p2", assisterId := none, timestamp := 1, team := some Team.white }] } ]

/-- **C5.** For every output row, `points = 3*wins + 1*ties` exactly, and
`pointsPerGame` is `points / gamesPlayed` rounded to 2 decimal places when
`gamesPlayed > 0` (and `0` when `gamesPlayed = 0`); in particular a player
with 2 wins, 1 tie and 1 loss over 4 games has `points = 7` and
`pointsPerGame = 1.75`. -/
theorem points_and_ppg :
    (∀ (ps : List Player) (gs : List Game), ∀ row ∈ playerStats ps gs,
      row.points = 3 * row.wins + row.ties ∧
      (0 < row.gamesPlayed →
        row.pointsPerGame = (jsRound ((row.points : ℚ) / (row.gamesPlayed : ℚ) * 100) : ℚ) / 100) ∧
      (row.gamesPlayed = 0 → row.pointsPerGame = 0)) ∧
    (∀ row ∈ playerStats [P1, P2] c5Games, row.player.id = "p1" →
      row.wins = 2 ∧ row.ties = 1 ∧ row.losses = 1 ∧ row.gamesPlayed = 4 ∧
      row.points = 7 ∧ row.pointsPerGame = 7 / 4) := by
  refine ⟨fun ps gs row hrow => playerStats_row_fields hrow, ?_⟩
  intro row hrow hid
  have hproj : (playerStats [P1, P2] c5Games).map
      (fun r => (r.player.id, r.wins, r.ties, r.losses, r.gamesPlayed, r.points)) =
      [("p1", 2, 1, 1, 4, 7), ("p2", 1, 1, 2, 4, 4)] := by decide
  have hmem := List.mem_map_of_mem
    (fun r : PlayerStats => (r.player.id, r.wins, r.ties, r.losses, r.gamesPlayed, r.points)) hrow
  rw [hproj] at hmem
  have hfields := playerStats_row_fields hrow
  rcases List.mem_cons.mp hmem with h | h
  · simp only [Prod.mk.injEq] at h
    obtain ⟨-, h2, h3, h4, h5, h6⟩ := h
    refine ⟨h2, h3, h4, h5, h6, ?_⟩
    rw [hfields.2.1 (by rw [h5]; omega), h6, h5]
    norm_num [jsRound]
  · simp only [List.mem_singleton, Prod.mk.injEq] at h
    rw [h.1] at hid
    exact absurd hid (by decide)

/-- Witness for C5: the formula instantiated on a concrete output row. -/
theorem points_and_ppg_witness :
    scenarioRowP1.points = 3 * scenarioRowP1.wins + scenarioRowP1.ties :=
  (points_and_ppg.1 [P1, P2] [scenarioGame] scenarioRowP1
    (by rw [scenario_rows]; exact List.mem_cons_self _ _)).1

/-! ## C10: wins + losses + ties never exceed gamesPlayed -/

theorem mapSet_mem {m : List (String × β)} {k : String} {v : β} :
    ∀ kv ∈ mapSet m k v, kv ∈ m ∨ kv = (k, v) := by
  induction m with
  | nil =>
    intro kv hkv
    simp only [mapSet, List.mem_singleton] at hkv
    exact Or.inr hkv
  | cons e rest ih =>
    intro kv hkv
    simp only [mapSet] at hkv
    by_cases h : e.1 = k
    · rw [if_pos h] at hkv
      rcases List.mem_cons.mp hkv with rfl | hkv
      · exact Or.inr (by rw [h])
      · exact Or.inl (List.mem_cons_of_mem _ hkv)
    · rw [if_neg h] at hkv
      rcases List.mem_cons.mp hkv with rfl | hkv
      · exact Or.inl (List.mem_cons_self _ _)
      · rcases ih kv hkv with h2 | h2
        · exact Or.inl (List.mem_cons_of_mem _ h2)
        · exact Or.inr h2

theorem mapUpdate_mem {m : List (String × β)} {k : String} {f : β → β} :
    ∀ kv ∈ mapUpdate m k f, kv ∈ m ∨ ∃ r, (k, r) ∈ m ∧ kv = (k, f r) := by
  induction m with
  | nil => intro kv hkv; simp [mapUpdate] at hkv
  | cons e rest ih =>
    intro kv hkv
    simp only [mapUpdate] at hkv
    by_cases h : e.1 = k
    · rw [if_pos h] at hkv
      rcases List.mem_cons.mp hkv with rfl | hkv
      · exact Or.inr ⟨e.2, by rw [← h]; exact ⟨List.mem_cons_self _ _, rfl⟩⟩
      · exact Or.inl (List.mem_cons_of_mem _ hkv)
    · rw [if_neg h] at hkv
      rcases List.mem_cons.mp hkv with rfl | hkv
      · exact Or.inl (List.mem_cons_self _ _)
      · rcases ih kv hkv with h2 | ⟨r, hr, h2⟩
        · exact Or.inl (List.mem_cons_of_mem _ h2)
        · exact Or.inr ⟨r, List.mem_cons_of_mem _ hr, h2⟩

/-- The invariant: every record in the stats map has
`wins + losses + ties ≤ gamesPlayed`. -/
def WLTinv (m : List (String × PSRec)) : Prop :=
  ∀ kv ∈ m, kv.2.wins + kv.2.losses + kv.2.ties ≤ kv.2.gamesPlayed

theorem applyResult_wlt {team : Team} {cg wg : Nat} {r : PSRec}
    (h : r.wins + r.losses + r.ties ≤ r.gamesPlayed) :
    (applyResult team cg wg r).wins + (applyResult team cg wg r).losses +
      (applyResult team cg wg r).ties ≤ (applyResult team cg wg r).gamesPlayed := by
  unfold applyResult
  split_ifs <;> simp <;> omega

theorem WLTinv_processAssignment {cg wg : Nat}
    {acc : List (String × PSRec) × List String} {pt : String × Team}
    (h : WLTinv acc.1) : WLTinv (processAssignment cg wg acc pt).1 := by
  unfold processAssignment
  rcases hg : mapGet acc.1 pt.1 with _ | v
  · exact h
  · intro kv hkv
    rcases mapUpdate_mem kv hkv with h2 | ⟨r, hr, h2⟩
    · exact h kv h2
    · rw [h2]
      exact applyResult_wlt (h (pt.1, r) hr)

theorem WLTinv_assignFold {cg wg : Nat} :
    ∀ (ta : List (String × Team)) (acc : List (String × PSRec) × List String),
      WLTinv acc.1 → WLTinv ((ta.foldl (processAssignment cg wg) acc).1) := by
  intro ta
  induction ta with
  | nil => intro acc h; exact h
  | cons pt rest ih =>
    intro acc h
    exact ih _ (WLTinv_processAssignment h)

theorem WLTinv_processGoal {acc : List (String × PSRec) × List String} {goal : Goal}
    (h : WLTinv acc.1) : WLTinv (processGoal acc goal).1 := by
  have hstep : ∀ (m : List (String × PSRec)) (k : String) (f : PSRec → PSRec),
      WLTinv m →
      (∀ r : PSRec, r.wins + r.losses + r.ties ≤ r.gamesPlayed →
        (f r).wins + (f r).losses + (f r).ties ≤ (f r).gamesPlayed) →
      WLTinv (mapUpdate m k f) := by
    intro m k f hm hf kv hkv
    rcases mapUpdate_mem kv hkv with h2 | ⟨r, hr, h2⟩
    · exact hm kv h2
    · rw [h2]
      exact hf r (hm (k, r) hr)
  unfold processGoal
  repeat'
    first
    | exact h
    | refine hstep _ _ _ ?_ (by intro r hr; simp; omega)
    | split
    | dsimp only

theorem WLTinv_goalFold :
    ∀ (gls : List Goal) (acc : List (String × PSRec) × List String),
      WLTinv acc.1 → WLTinv ((gls.foldl processGoal acc).1) := by
  intro gls
  induction gls with
  | nil => intro acc h; exact h
  | cons g rest ih => intro acc h; exact ih _ (WLTinv_processGoal h)

theorem WLTinv_processGame {m : List (String × PSRec)} {g : Game}
    (h : WLTinv m) : WLTinv (processGame m g) := by
  unfold processGame
  rcases g.teamAssignments with _ | ta
  · exact h
  rcases g.goals with _ | gls
  · exact h
  exact WLTinv_goalFold _ _ (WLTinv_assignFold _ _ h)

theorem WLTinv_gamesFold :
    ∀ (gs : List Game) (m : List (String × PSRec)),
      WLTinv m → WLTinv (gs.foldl processGame m) := by
  intro gs
  induction gs with
  | nil => intro m h; exact h
  | cons g rest ih => intro m h; exact ih _ (WLTinv_processGame h)

theorem WLTinv_statsInit (players : List Player) : WLTinv (statsInit players) := by
  unfold statsInit
  suffices hgen : ∀ (ps : List Player) (m : List (String × PSRec)),
      WLTinv m → WLTinv (ps.foldl (fun m p => mapSet m p.id (PSRec.init p)) m) by
    exact hgen players [] (fun kv hkv => by cases hkv)
  intro ps
  induction ps with
  | nil => intro m h; exact h
  | cons p rest ih =>
    intro m h
    refine ih _ ?_
    intro kv hkv
    rcases mapSet_mem kv hkv with h2 | h2
    · exact h kv h2
    · rw [h2]
      simp [PSRec.init]

/-- Fixture for strictness: P1 scores but is not assigned in the game. -/
def c10Games : List Game :=
  [ { id := "g", createdAt := 1
      teamAssignments := some [("p2", Team.white)]
      goals := some [{ scorerId := "p1", assisterId := none, timestamp := 1, team := some Team.color }] } ]

/-- **C10.** For every input and every output row of the stats fold,
`wins + losses + ties ≤ gamesPlayed`; and the inequality can be strict: a
player credited a game only via a goal (no team assignment in that game) gets
`gamesPlayed` credit but no win/loss/tie credit. -/
theorem wlt_le_gamesPlayed :
    (∀ (ps : List Player) (gs : List Game), ∀ row ∈ playerStats ps gs,
      row.wins + row.losses + row.ties ≤ row.gamesPlayed) ∧
    (∀ row ∈ playerStats [P1, P2] c10Games, row.player.id = "p1" →
      row.wins + row.losses + row.ties < row.gamesPlayed) := by
  constructor
  · intro ps gs row hrow
    unfold playerStats at hrow
    obtain ⟨hmem, -⟩ := List.mem_filter.mp hrow
    obtain ⟨kv, hkv, heq⟩ := List.mem_map.mp hmem
    subst heq
    have hinv := WLTinv_gamesFold gs _ (WLTinv_statsInit ps)
    have := hinv kv hkv
    simpa [finalizeRow] using this
  · intro row hrow hid
    have hproj : (playerStats [P1, P2] c10Games).map
        (fun r => (r.player.id, r.wins + r.losses + r.ties, r.gamesPlayed)) =
        [("p1", 0, 1), ("p2", 1, 1)] := by decide
    have hmem := List.mem_map_of_mem
      (fun r : PlayerStats => (r.player.id, r.wins + r.losses + r.ties, r.gamesPlayed)) hrow
    rw [hproj] at hmem
    rcases List.mem_cons.mp hmem with h | h
    · simp only [Prod.mk.injEq] at h
      omega
    · simp only [List.mem_singleton, Prod.mk.injEq] at h
      rw [h.1] at hid
      exact absurd hid (by decide)

/-- Witness for C10: the inequality instantiated on a concrete output row. -/
theorem wlt_le_gamesPlayed_witness :
    scenarioRowP1.wins + scenarioRowP1.losses + scenarioRowP1.ties ≤
      scenarioRowP1.gamesPlayed :=
  wlt_le_gamesPlayed.1 [P1, P2] [scenarioGame] scenarioRowP1
    (by rw [scenario_rows]; exact List.mem_cons_self _ _)

/-! ## C6: the form window -/

/-- Claim-side description of the result one game contributes to a player's
form: `none` when the game has an absent field or no assignment for the
player, otherwise the W/L/T result of the player's team. -/
def gameResult? (pid : String) (g : Game) : Option FormResult :=
  match g.teamAssignments, g.goals with
  | some ta, some gls =>
    (mapGet ta pid).map
      (fun team => formResult team (teamGoalCount gls .color) (teamGoalCount gls .white))
  | _, _ => none

/-- Claim-side description of the form field: sort all games by `createdAt`
descending, keep the results of games where the player has an assignment,
take the first 5, and reverse so index 0 is the oldest. -/
def formSpec (pid : String) (games : List Game) : List FormResult :=
  (((games.mergeSort gameDateDesc).filterMap (gameResult? pid)).take 5).reverse

/-- The break-at-5 collection loop equals take-5 of the filtered results. -/
theorem formLoop_eq (pid : String) :
    ∀ (l : List Game) (acc : List FormResult), acc.length < 5 →
      formLoop pid l acc = acc ++ (l.filterMap (gameResult? pid)).take (5 - acc.length) := by
  intro l
  induction l with
  | nil => intro acc _; simp [formLoop]
  | cons g rest ih =>
    intro acc hacc
    rcases hta : g.teamAssignments with _ | ta
    · have hres : gameResult? pid g = none := by simp [gameResult?, hta]
      simp only [formLoop, hta]
      rw [List.filterMap_cons_none hres]
      exact ih acc hacc
    rcases hgls : g.goals with _ | gls
    · have hres : gameResult? pid g = none := by simp [gameResult?, hta, hgls]
      simp only [formLoop, hta, hgls]
      rw [List.filterMap_cons_none hres]
      exact ih acc hacc
    rcases hpt : mapGet ta pid with _ | team
    · have hres : gameResult? pid g = none := by simp [gameResult?, hta, hgls, hpt]
      simp only [formLoop, hta, hgls, hpt]
      rw [List.filterMap_cons_none hres]
      exact ih acc hacc
    · have hres : gameResult? pid g =
          some (formResult team (teamGoalCount gls .color) (teamGoalCount gls .white)) := by
        simp [gameResult?, hta, hgls, hpt]
      simp only [formLoop, hta, hgls, hpt]
      rw [List.filterMap_cons_some hres]
      set res := formResult team (teamGoalCount gls .color) (teamGoalCount gls .white) with hresdef
      have htake : (res :: rest.filterMap (gameResult? pid)).take (5 - acc.length) =
          res :: (rest.filterMap (gameResult? pid)).take (5 - acc.length - 1) := by
        have h51 : 5 - acc.length = (5 - acc.length - 1) + 1 := by omega
        conv_lhs => rw [h51, List.take_succ_cons]
      rw [htake]
      by_cases hfull : (acc ++ [res]).length ≥ 5
      · rw [if_pos hfull]
        have h0 : 5 - acc.length - 1 = 0 := by
          simp only [List.length_append, List.length_singleton] at hfull
          omega
        rw [h0, List.take_zero]
      · rw [if_neg hfull]
        rw [ih (acc ++ [res]) (lt_of_not_ge hfull)]
        have hlen : 5 - (acc ++ [res]).length = 5 - acc.length - 1 := by
          simp only [List.length_append, List.length_singleton]
          omega
        rw [hlen, List.append_assoc]
        simp

/-- Entries of the stats map always carry the player object whose id is the
map key. -/
def PIDinv (m : List (String × PSRec)) : Prop :=
  ∀ kv ∈ m, kv.2.player.id = kv.1

theorem PIDinv_processGoal {acc : List (String × PSRec) × List String} {goal : Goal}
    (h : PIDinv acc.1) : PIDinv (processGoal acc goal).1 := by
  have hstep : ∀ (m : List (String × PSRec)) (k : String) (f : PSRec → PSRec),
      PIDinv m → (∀ r : PSRec, (f r).player = r.player) → PIDinv (mapUpdate m k f) := by
    intro m k f hm hf kv hkv
    rcases mapUpdate_mem kv hkv with h2 | ⟨r, hr, h2⟩
    · exact hm kv h2
    · rw [h2]
      simpa [hf r] using hm (k, r) hr
  unfold processGoal
  repeat'
    first
    | exact h
    | refine hstep _ _ _ ?_ (by intro r; simp)
    | split
    | dsimp only

theorem PIDinv_processGame {m : List (String × PSRec)} {g : Game}
    (h : PIDinv m) : PIDinv (processGame m g) := by
  have hstep : ∀ (m : List (String × PSRec)) (k : String) (f : PSRec → PSRec),
      PIDinv m → (∀ r : PSRec, (f r).player = r.player) → PIDinv (mapUpdate m k f) := by
    intro m k f hm hf kv hkv
    rcases mapUpdate_mem kv hkv with h2 | ⟨r, hr, h2⟩
    · exact hm kv h2
    · rw [h2]
      simpa [hf r] using hm (k, r) hr
  have happly : ∀ (t : Team) (cg wg : Nat) (r : PSRec),
      (applyResult t cg wg r).player = r.player := by
    intro t cg wg r
    unfold applyResult
    split_ifs <;> rfl
  unfold processGame
  rcases g.teamAssignments with _ | ta
  · exact h
  rcases g.goals with _ | gls
  · exact h
  dsimp only
  have hassign : ∀ (ta : List (String × Team)) (acc : List (String × PSRec) × List String),
      PIDinv acc.1 → PIDinv ((ta.foldl (processAssignment (teamGoalCount gls .color)
        (teamGoalCount gls .white)) acc).1) := by
    intro ta
    induction ta with
    | nil => intro acc hacc; exact hacc
    | cons pt rest ih =>
      intro acc hacc
      refine ih _ ?_
      unfold processAssignment
      rcases mapGet acc.1 pt.1 with _ | v
      · exact hacc
      · exact hstep _ _ _ hacc (happly pt.2 _ _)
  have hgoals : ∀ (gls2 : List Goal) (acc : List (String × PSRec) × List String),
      PIDinv acc.1 → PIDinv ((gls2.foldl processGoal acc).1) := by
    intro gls2
    induction gls2 with
    | nil => intro acc hacc; exact hacc
    | cons g2 rest ih => intro acc hacc; exact ih _ (PIDinv_processGoal hacc)
  exact hgoals _ _ (hassign _ _ h)

theorem PIDinv_playerStats (ps : List Player) (gs : List Game) :
    PIDinv (gs.foldl processGame (statsInit ps)) := by
  have hinit : PIDinv (statsInit ps) := by
    unfold statsInit
    suffices hgen : ∀ (l : List Player) (m : List (String × PSRec)),
        PIDinv m → PIDinv (l.foldl (fun m p => mapSet m p.id (PSRec.init p)) m) by
      exact hgen ps [] (fun kv hkv => by cases hkv)
    intro l
    induction l with
    | nil => intro m h; exact h
    | cons p rest ih =>
      intro m h
      refine ih _ ?_
      intro kv hkv
      rcases mapSet_mem kv hkv with h2 | h2
      · exact h kv h2
      · rw [h2]
        simp [PSRec.init]
  suffices hgen : ∀ (l : List Game) (m : List (String × PSRec)),
      PIDinv m → PIDinv (l.foldl processGame m) by
    exact hgen gs _ hinit
  intro l
  induction l with
  | nil => intro m h; exact h
  | cons g rest ih => intro m h; exact ih _ (PIDinv_processGame h)

/-- **C6.** For every output row, `form` is computed by sorting all games by
`createdAt` descending, walking them in that order, appending the W/L/T result
(same comparison as the main fold) for each game where the player has a team
assignment, stopping at 5 results, and reversing so index 0 is the oldest;
`formWins` is the number of W minus the number of L in that window. -/
theorem form_window :
    ∀ (ps : List Player) (gs : List Game), ∀ row ∈ playerStats ps gs,
      row.form = formSpec row.player.id gs ∧
      row.formWins = ((row.form.filter (· = FormResult.W)).length : ℤ) -
        ((row.form.filter (· = FormResult.L)).length : ℤ) := by
  intro ps gs row hrow
  unfold playerStats at hrow
  obtain ⟨hmem, -⟩ := List.mem_filter.mp hrow
  obtain ⟨kv, hkv, heq⟩ := List.mem_map.mp hmem
  subst heq
  have hpid : kv.2.player.id = kv.1 := PIDinv_playerStats ps gs kv hkv
  constructor
  · show (finalizeRow kv.1 kv.2 (gs.mergeSort gameDateDesc)).form = _
    have hplayer : (finalizeRow kv.1 kv.2 (gs.mergeSort gameDateDesc)).player = kv.2.player := rfl
    rw [hplayer, hpid]
    show (formLoop kv.1 (gs.mergeSort gameDateDesc) []).reverse = formSpec kv.1 gs
    rw [formLoop_eq kv.1 _ [] (by simp)]
    simp [formSpec]
  · rfl

/-- Witness for C6: the form characterization on a concrete output row. -/
theorem form_window_witness :
    scenarioRowP1.form = formSpec scenarioRowP1.player.id [scenarioGame] :=
  (form_window [P1, P2] [scenarioGame] scenarioRowP1
    (by rw [scenario_rows]; exact List.mem_cons_self _ _)).1

/-! ## C7: sorting by points with tie-breaks -/

/-- The sort key of the points column in descending mode: points, then
points-per-game, then goal involvements, then goals, compared
lexicographically. -/
def pointsKey (a : PlayerStats) : Lex (Nat × Lex (ℚ × Lex (Nat × Nat))) :=
  toLex (a.points, toLex (a.pointsPerGame, toLex (a.goalInvolvements, a.goals)))

/-- The points-descending comparator admits an element iff the sort keys are
in (weakly) descending lexicographic order. -/
theorem statCmp_points_desc_le_iff (a b : PlayerStats) :
    statCmp SortColumn.points SortDirection.desc a b ≤ 0 ↔ pointsKey b ≤ pointsKey a := by
  show -(statCmpAsc SortColumn.points a b) ≤ 0 ↔ _
  rw [neg_nonpos]
  unfold statCmpAsc pointsKey
  dsimp only
  split_ifs with h1 h2 h3
  · have hp : a.points = b.points := by
      have := sub_eq_zero.mp h1
      exact_mod_cast this
    have hq : a.pointsPerGame = b.pointsPerGame := sub_eq_zero.mp h2
    have hg : a.goalInvolvements = b.goalInvolvements := by
      have := sub_eq_zero.mp h3
      exact_mod_cast this
    simp [Prod.Lex.le_iff, hp, hq, hg, sub_nonneg, Nat.cast_le]
  · have hp : a.points = b.points := by
      have := sub_eq_zero.mp h1
      exact_mod_cast this
    have hq : a.pointsPerGame = b.pointsPerGame := sub_eq_zero.mp h2
    have hg : ¬ b.goalInvolvements = a.goalInvolvements := by
      intro h
      exact h3 (by rw [h]; ring)
    simp only [Prod.Lex.le_iff, hp, hq, hg, sub_nonneg, Nat.cast_le, lt_self_iff_false,
      false_or, or_false, false_and, and_false, true_and, eq_self_iff_true]
    omega
  · have hp : a.points = b.points := by
      have := sub_eq_zero.mp h1
      exact_mod_cast this
    have hq : ¬ b.pointsPerGame = a.pointsPerGame := by
      intro h
      exact h2 (by rw [h]; ring)
    simp only [Prod.Lex.le_iff, hp, hq, sub_nonneg, lt_self_iff_false, false_or, or_false,
      false_and, and_false, true_and, eq_self_iff_true]
    exact ⟨fun h => lt_of_le_of_ne h (fun he => hq he), le_of_lt⟩
  · have hp : ¬ b.points = a.points := by
      intro h
      exact h1 (by rw [h]; ring)
    simp only [Prod.Lex.le_iff, hp, sub_nonneg, Nat.cast_le, false_and, or_false]
    omega


/-- **C7.** When the stats table is sorted by the points column (descending),
any two rows are in descending points order, rows with equal points are
ordered by descending pointsPerGame, rows that also tie there by descending
goalInvolvements, and rows that also tie there by descending goals. -/
theorem points_sort_tiebreak :
    ∀ (ps : List Player) (gs : List Game),
      (sortedStats ps gs SortColumn.points SortDirection.desc).Pairwise (fun a b =>
        b.points ≤ a.points ∧
        (a.points = b.points → b.pointsPerGame ≤ a.pointsPerGame) ∧
        (a.points = b.points ∧ a.pointsPerGame = b.pointsPerGame →
          b.goalInvolvements ≤ a.goalInvolvements) ∧
        (a.points = b.points ∧ a.pointsPerGame = b.pointsPerGame ∧
          a.goalInvolvements = b.goalInvolvements → b.goals ≤ a.goals)) := by
  intro ps gs
  have htrans : ∀ a b c : PlayerStats,
      (fun x y : PlayerStats => decide (statCmp SortColumn.points SortDirection.desc x y ≤ 0)) a b →
      (fun x y : PlayerStats => decide (statCmp SortColumn.points SortDirection.desc x y ≤ 0)) b c →
      (fun x y : PlayerStats => decide (statCmp SortColumn.points SortDirection.desc x y ≤ 0)) a c := by
    intro a b c hab hbc
    simp only [decide_eq_true_eq] at hab hbc ⊢
    rw [statCmp_points_desc_le_iff] at hab hbc ⊢
    exact le_trans hbc hab
  have htotal : ∀ a b : PlayerStats,
      ((fun x y : PlayerStats => decide (statCmp SortColumn.points SortDirection.desc x y ≤ 0)) a b ||
       (fun x y : PlayerStats => decide (statCmp SortColumn.points SortDirection.desc x y ≤ 0)) b a) := by
    intro a b
    simp only [Bool.or_eq_true, decide_eq_true_eq]
    rw [statCmp_points_desc_le_iff, statCmp_points_desc_le_iff]
    exact le_total (pointsKey b) (pointsKey a)
  have hs := List.sorted_mergeSort htrans htotal (playerStats ps gs)
  refine List.Pairwise.imp ?_ hs
  intro a b hab
  replace hab := (statCmp_points_desc_le_iff a b).mp (by simpa using hab)
  unfold pointsKey at hab
  rw [Prod.Lex.le_iff] at hab
  refine ⟨?_, ?_, ?_, ?_⟩
  · rcases hab with h | ⟨h, -⟩
    · exact le_of_lt h
    · exact le_of_eq h
  · intro hpeq
    rcases hab with h | ⟨-, h⟩
    · omega
    · rw [Prod.Lex.le_iff] at h
      rcases h with h | ⟨h, -⟩
      · exact le_of_lt h
      · exact le_of_eq h
  · rintro ⟨hpeq, hqeq⟩
    rcases hab with h | ⟨-, h⟩
    · omega
    · rw [Prod.Lex.le_iff] at h
      rcases h with h | ⟨-, h2⟩
      · exact absurd hqeq.symm (ne_of_lt h)
      · rw [Prod.Lex.le_iff] at h2
        rcases h2 with h2 | ⟨h2, -⟩
        · exact le_of_lt h2
        · exact le_of_eq h2
  · rintro ⟨hpeq, hqeq, hgeq⟩
    rcases hab with h | ⟨-, h⟩
    · omega
    · rw [Prod.Lex.le_iff] at h
      rcases h with h | ⟨-, h2⟩
      · exact absurd hqeq.symm (ne_of_lt h)
      · rw [Prod.Lex.le_iff] at h2
        rcases h2 with h2 | ⟨-, h3⟩
        · simp only at h2
          omega
        · simpa using h3


/-- Witness for C7: the tie-break ordering on a concrete sorted table. -/
theorem points_sort_tiebreak_witness :
    (sortedStats [P1, P2] [scenarioGame] SortColumn.points SortDirection.desc).Pairwise
      (fun a b =>
        b.points ≤ a.points ∧
        (a.points = b.points → b.pointsPerGame ≤ a.pointsPerGame) ∧
        (a.points = b.points ∧ a.pointsPerGame = b.pointsPerGame →
          b.goalInvolvements ≤ a.goalInvolvements) ∧
        (a.points = b.points ∧ a.pointsPerGame = b.pointsPerGame ∧
          a.goalInvolvements = b.goalInvolvements → b.goals ≤ a.goals)) :=
  points_sort_tiebreak [P1, P2] [scenarioGame]

/-! ## C3: skipping games with absent fields -/

/-- Two decompositions of one list into an all-`q` prefix and an all-not-`q`
suffix coincide. -/
theorem append_eq_append_unique (q : α → Bool) :
    ∀ {a b c d : List α}, a ++ b = c ++ d →
      (∀ y ∈ a, q y) → (∀ y ∈ c, q y) → (∀ y ∈ b, ¬ q y) → (∀ y ∈ d, ¬ q y) →
      a = c ∧ b = d := by
  intro a
  induction a with
  | nil =>
    intro b c d heq ha hc hb hd
    rcases c with _ | ⟨z, c⟩
    · exact ⟨rfl, heq⟩
    · exfalso
      have hz : z ∈ ([] : List α) ++ b := by
        rw [heq]
        exact List.mem_append_left _ (List.mem_cons_self _ _)
      simp only [List.nil_append] at hz
      exact hb z hz (hc z (List.mem_cons_self _ _))
  | cons x a ih =>
    intro b c d heq ha hc hb hd
    rcases c with _ | ⟨z, c⟩
    · exfalso
      have hx : x ∈ ([] : List α) ++ d := by
        rw [← heq]
        exact List.mem_append_left _ (List.mem_cons_self _ _)
      simp only [List.nil_append] at hx
      exact hd x hx (ha x (List.mem_cons_self _ _))
    · simp only [List.cons_append, List.cons.injEq] at heq
      obtain ⟨rfl, heq⟩ := heq
      obtain ⟨h1, h2⟩ := ih heq (fun y hy => ha y (List.mem_cons_of_mem _ hy))
        (fun y hy => hc y (List.mem_cons_of_mem _ hy)) hb hd
      exact ⟨by rw [h1], h2⟩

theorem mergeSort_filter_comm {le : α → α → Bool}
    (htrans : ∀ (a b c : α), le a b → le b c → le a c)
    (htotal : ∀ (a b : α), le a b || le b a) (p : α → Bool) :
    ∀ l : List α, (l.mergeSort le).filter p = (l.filter p).mergeSort le := by
  intro l
  induction l with
  | nil => simp
  | cons x l ih =>
    obtain ⟨l₁, l₂, hbig, hsmall, hl₁⟩ := List.mergeSort_cons htrans htotal x l
    have hs1 : (l₁ ++ x :: l₂).Pairwise (fun a b => le a b = true) := by
      rw [← hbig]
      exact List.sorted_mergeSort htrans htotal (x :: l)
    have hxl₂ : ∀ b ∈ l₂, le x b = true := by
      intro b hbmem
      have := (List.pairwise_append.mp hs1).2.1
      exact List.rel_of_pairwise_cons this hbmem
    by_cases hx : p x
    · obtain ⟨m₁, m₂, hbig2, hsmall2, hm₁⟩ := List.mergeSort_cons htrans htotal x (l.filter p)
      have hs2 : (m₁ ++ x :: m₂).Pairwise (fun a b => le a b = true) := by
        rw [← hbig2]
        exact List.sorted_mergeSort htrans htotal (x :: l.filter p)
      have hxm₂ : ∀ b ∈ m₂, le x b = true := by
        intro b hbmem
        have := (List.pairwise_append.mp hs2).2.1
        exact List.rel_of_pairwise_cons this hbmem
      rw [hbig, List.filter_append, List.filter_cons_of_pos hx,
        List.filter_cons_of_pos hx, hbig2]
      rw [hsmall] at ih
      rw [hsmall2, List.filter_append] at ih
      obtain ⟨h1, h2⟩ := append_eq_append_unique (fun b => !le x b) ih
        (fun y hy => hl₁ y (List.mem_of_mem_filter hy))
        (fun y hy => hm₁ y hy)
        (fun y hy => by simp [hxl₂ y (List.mem_of_mem_filter hy)])
        (fun y hy => by simp [hxm₂ y hy])
      rw [h1, h2]
    · rw [hbig, List.filter_append, List.filter_cons_of_neg hx,
        List.filter_cons_of_neg hx, ← List.filter_append, ← hsmall, ih]


theorem filterMap_eq_filterMap_filter (f : α → Option β) :
    ∀ l : List α, l.filterMap f = (l.filter (fun x => (f x).isSome)).filterMap f := by
  intro l
  induction l with
  | nil => rfl
  | cons x l ih =>
    rcases hf : f x with _ | v
    · rw [List.filterMap_cons_none hf, List.filter_cons_of_neg (by simp [hf]), ih]
    · rw [List.filterMap_cons_some hf, List.filter_cons_of_pos (by simp [hf]),
        List.filterMap_cons_some hf, ih]

theorem gameDateDesc_trans :
    ∀ (a b c : Game), gameDateDesc a b → gameDateDesc b c → gameDateDesc a c := by
  intro a b c hab hbc
  simp only [gameDateDesc, decide_eq_true_eq] at hab hbc ⊢
  omega

theorem gameDateDesc_total : ∀ (a b : Game), gameDateDesc a b || gameDateDesc b a := by
  intro a b
  simp only [gameDateDesc, Bool.or_eq_true, decide_eq_true_eq]
  omega

/-- Deleting a game that contributes no result leaves the filtered results of
the date-sorted list unchanged, wherever the game sits in the input. -/
theorem filterMap_mergeSort_drop {f : Game → Option β} {g : Game}
    (hg : f g = none) (l1 l2 : List Game) :
    ((l1 ++ g :: l2).mergeSort gameDateDesc).filterMap f =
      ((l1 ++ l2).mergeSort gameDateDesc).filterMap f := by
  rw [filterMap_eq_filterMap_filter f, filterMap_eq_filterMap_filter f ((l1 ++ l2).mergeSort _)]
  rw [mergeSort_filter_comm gameDateDesc_trans gameDateDesc_total,
    mergeSort_filter_comm gameDateDesc_trans gameDateDesc_total]
  congr 2
  rw [List.filter_append, List.filter_append, List.filter_cons_of_neg (by simp [hg])]

/-- A game with an absent field yields no form result for any player. -/
theorem gameResult?_invalid {g : Game} (hg : g.teamAssignments = none ∨ g.goals = none)
    (pid : String) : gameResult? pid g = none := by
  unfold gameResult?
  rcases hg with h | h
  · rw [h]
  · rw [h]
    rcases g.teamAssignments with _ | ta <;> rfl

/-- **C3 (amended).** A game whose `teamAssignments` or `goals` *field is
absent* is skipped entirely by the stats fold: deleting it from the input,
wherever it occurs, leaves the whole output — every player's gamesPlayed,
wins, losses, ties, goals, assists and form — unchanged. -/
theorem skip_absent_field_games :
    ∀ (ps : List Player) (l1 l2 : List Game) (g : Game),
      g.teamAssignments = none ∨ g.goals = none →
      playerStats ps (l1 ++ g :: l2) = playerStats ps (l1 ++ l2) := by
  intro ps l1 l2 g hg
  have hpg : ∀ m, processGame m g = m := by
    intro m
    unfold processGame
    rcases hg with h | h
    · rw [h]
    · rw [h]
      rcases g.teamAssignments with _ | ta <;> rfl
  have hform : ∀ pid,
      formLoop pid ((l1 ++ g :: l2).mergeSort gameDateDesc) [] =
      formLoop pid ((l1 ++ l2).mergeSort gameDateDesc) [] := by
    intro pid
    rw [formLoop_eq pid _ [] (by simp), formLoop_eq pid _ [] (by simp)]
    rw [filterMap_mergeSort_drop (gameResult?_invalid hg pid)]
  have hfin : ∀ (pid : String) (r : PSRec),
      finalizeRow pid r ((l1 ++ g :: l2).mergeSort gameDateDesc) =
      finalizeRow pid r ((l1 ++ l2).mergeSort gameDateDesc) := by
    intro pid r
    unfold finalizeRow
    rw [hform pid]
  unfold playerStats
  rw [List.foldl_append, List.foldl_append, List.foldl_cons, hpg, ← List.foldl_append]
  dsimp only
  rw [List.map_congr_left (fun (kv : String × PSRec) _ => hfin kv.1 kv.2)]

/-- A game with a *present but empty* goal list and one assignment. -/
def c3Game : Game :=
  { id := "g", createdAt := 5, teamAssignments := some [("p1", Team.color)]
    goals := some [] }

/-- **Counterexample to C3 as stated.** A game that has no goals recorded
(`goals` present but empty) with a team assignment for P1 is *not* skipped:
it is scored as a 0–0 tie and contributes a gamesPlayed and a tie to P1. -/
theorem skip_absent_field_games_cex :
    c3Game.goals = some [] ∧
    (playerStats [P1] [c3Game]).map (fun r => (r.player.id, r.gamesPlayed, r.ties)) =
      [("p1", 1, 1)] := by
  refine ⟨rfl, by decide⟩

/-- Witness for C3: deleting an assignment-less game from a concrete input. -/
theorem skip_absent_field_games_witness :
    playerStats [P1]
        [{ id := "e", createdAt := 1, teamAssignments := none, goals := none }] =
      playerStats [P1] [] :=
  skip_absent_field_games [P1] [] []
    { id := "e", createdAt := 1, teamAssignments := none, goals := none } (Or.inl rfl)

/-! ## C4: goal crediting -/

theorem mapGet_mapUpdate {k k2 : String} {f : β → β} :
    ∀ {m : List (String × β)},
      mapGet (mapUpdate m k f) k2 = if k2 = k then (mapGet m k).map f else mapGet m k2 := by
  intro m
  induction m with
  | nil => simp [mapUpdate, mapGet]
  | cons e rest ih =>
    obtain ⟨ek, ev⟩ := e
    by_cases h1 : ek = k
    · subst h1
      by_cases h2 : k2 = ek
      · subst h2
        simp [mapUpdate, mapGet]
      · simp [mapUpdate, mapGet, h2, Ne.symm h2]
    · by_cases h2 : k2 = k
      · subst h2
        simp [mapUpdate, mapGet, h1, ih, Ne.symm h1]
      · by_cases h3 : ek = k2
        · subst h3
          simp [mapUpdate, mapGet, h1, h2]
        · simp [mapUpdate, mapGet, h1, h2, h3, ih]

/-- Claim-side per-player credit of one goal (amended C4): if the scorer id is
known, the scorer gains a goal, the assister (if any) gains an assist, and a
credited player not already counted for this game gains one gamesPlayed;
if the scorer id is unknown the whole goal is dropped. -/
def specGoalCredit (m : List (String × PSRec)) (ing : List String) (goal : Goal)
    (pid : String) (r : PSRec) : PSRec :=
  if (mapGet m goal.scorerId).isSome then
    { r with
      goals := r.goals + (if pid = goal.scorerId then 1 else 0)
      assists := r.assists + (if goal.assisterId = some pid then 1 else 0)
      gamesPlayed := r.gamesPlayed +
        (if (pid = goal.scorerId ∨ goal.assisterId = some pid) ∧ pid ∉ ing then 1 else 0) }
  else r

theorem processGoal_get {m : List (String × PSRec)} {ing : List String} {goal : Goal}
    {pid : String} {r : PSRec} (hr : mapGet m pid = some r) :
    mapGet (processGoal (m, ing) goal).1 pid = some (specGoalCredit m ing goal pid r) := by
  unfold processGoal specGoalCredit
  rcases hsc : mapGet m goal.scorerId with _ | v
  · simp [hsc, hr]
  · simp only [hsc, Option.isSome_some, if_true]
    rcases ha : goal.assisterId with _ | aid
    · -- no assister
      simp only [ha]
      by_cases hps : pid = goal.scorerId
      · subst hps
        rw [hr] at hsc
        injection hsc with hv
        subst hv
        by_cases hingS : goal.scorerId ∈ ing
        · simp [mapGet_mapUpdate, hr, hingS]
        · simp [mapGet_mapUpdate, hr, hingS]
      · by_cases hingS : goal.scorerId ∈ ing
        · simp [mapGet_mapUpdate, hps, hr, hingS]
        · simp [mapGet_mapUpdate, hps, hr, hingS]
    · -- some assister
      simp only [ha]
      by_cases hpa : aid = pid
      · subst hpa
        -- the assister is our player; known since r present
        by_cases hps : aid = goal.scorerId
        · -- self assist
          subst hps
          rw [hr] at hsc
          injection hsc with hv
          subst hv
          by_cases hingS : goal.scorerId ∈ ing
          · simp [mapGet_mapUpdate, hr, hingS]
          · simp [mapGet_mapUpdate, hr, hingS]
        · by_cases hingS : goal.scorerId ∈ ing <;> by_cases hingA : aid ∈ ing <;>
            simp [mapGet_mapUpdate, hps, hr, hingS, hingA, Ne.symm hps, List.mem_cons]
      · -- assister is someone else
        have hane : ¬ (some aid = some pid) := by simp [hpa]
        by_cases hps : pid = goal.scorerId
        · subst hps
          rw [hr] at hsc
          injection hsc with hv
          subst hv
          by_cases hingS : goal.scorerId ∈ ing <;>
            rcases hma : mapGet m aid with _ | w <;>
            by_cases hingA : aid ∈ ing <;>
            simp [mapGet_mapUpdate, hr, hingS, hma, hingA, hpa, hane, Ne.symm hpa,
              List.mem_cons]
        · by_cases has : aid = goal.scorerId
          · subst has
            by_cases hingS : goal.scorerId ∈ ing <;>
              simp [mapGet_mapUpdate, hps, hr, hsc, hingS, hpa, hane, List.mem_cons]
          · by_cases hingS : goal.scorerId ∈ ing <;>
              rcases hma : mapGet m aid with _ | w <;>
              by_cases hingA : aid ∈ ing <;>
              simp [mapGet_mapUpdate, hps, hr, hsc, hingS, hma, hingA, hpa, hane, has,
                Ne.symm hpa, List.mem_cons]

theorem processGoal_scorer_unknown {m : List (String × PSRec)} {ing : List String}
    {goal : Goal} (h : mapGet m goal.scorerId = none) :
    processGoal (m, ing) goal = (m, ing) := by
  unfold processGoal
  rw [h]

theorem processGoal_isSome (m : List (String × PSRec)) (ing : List String)
    (goal : Goal) (pid : String) :
    (mapGet (processGoal (m, ing) goal).1 pid).isSome = (mapGet m pid).isSome := by
  unfold processGoal
  repeat'
    first
    | rfl
    | split
    | dsimp only
  all_goals
    simp only [mapGet_mapUpdate]
    split_ifs <;> simp_all

theorem processGoal_get_none {m : List (String × PSRec)} {ing : List String}
    {goal : Goal} {pid : String} (h : mapGet m pid = none) :
    mapGet (processGoal (m, ing) goal).1 pid = none := by
  have := processGoal_isSome m ing goal pid
  rw [h] at this
  simp only [Option.isSome_none] at this
  exact Option.not_isSome_iff_eq_none.mp (by simp [this])

theorem processGoal_ing {m : List (String × PSRec)} {ing : List String} {goal : Goal} :
    ∀ k ∈ (processGoal (m, ing) goal).2,
      k ∈ ing ∨ ((mapGet m k).isSome ∧ (k = goal.scorerId ∨ goal.assisterId = some k)) := by
  unfold processGoal
  rcases hsc : mapGet m goal.scorerId with _ | v
  · exact fun k hk => Or.inl hk
  · dsimp only
    have hbase : ∀ k, k ∈ (if goal.scorerId ∈ ing then ing else goal.scorerId :: ing) →
        k ∈ ing ∨ ((mapGet m k).isSome ∧ (k = goal.scorerId ∨ goal.assisterId = some k)) := by
      intro k hk
      by_cases hingS : goal.scorerId ∈ ing
      · rw [if_pos hingS] at hk
        exact Or.inl hk
      · rw [if_neg hingS] at hk
        rcases List.mem_cons.mp hk with rfl | hk
        · exact Or.inr ⟨by simp [hsc], Or.inl rfl⟩
        · exact Or.inl hk
    rcases ha : goal.assisterId with _ | aid
    · dsimp only
      by_cases hingS : goal.scorerId ∈ ing <;>
        simp only [hingS, if_true, if_false, ite_true, ite_false] <;>
        intro k hk
      · exact Or.inl hk
      · rcases List.mem_cons.mp hk with rfl | hk
        · exact Or.inr ⟨by simp [hsc], Or.inl rfl⟩
        · exact Or.inl hk
    · dsimp only
      by_cases hingS : goal.scorerId ∈ ing <;>
        simp only [hingS, if_true, if_false, ite_true, ite_false]
      · rcases hma : mapGet
            (mapUpdate m goal.scorerId fun r =>
              { r with goals := r.goals + 1 }) aid with _ | w <;>
          simp only [hma]
        · exact fun k hk => Or.inl hk
        · have haidSome : (mapGet m aid).isSome := by
            rw [mapGet_mapUpdate] at hma
            by_cases h2 : aid = goal.scorerId
            · rw [h2, hsc]
              rfl
            · rw [if_neg h2] at hma
              rw [hma]
              rfl
          by_cases hingA : aid ∈ ing <;>
            simp only [hingA, if_true, if_false, ite_true, ite_false] <;> intro k hk
          · exact Or.inl hk
          · rcases List.mem_cons.mp hk with rfl | hk
            · exact Or.inr ⟨haidSome, Or.inr rfl⟩
            · exact Or.inl hk
      · rcases hma : mapGet
            (mapUpdate (mapUpdate m goal.scorerId fun r => { r with goals := r.goals + 1 })
              goal.scorerId fun r => { r with gamesPlayed := r.gamesPlayed + 1 }) aid with _ | w <;>
          simp only [hma]
        · intro k hk
          rcases List.mem_cons.mp hk with rfl | hk
          · exact Or.inr ⟨by simp [hsc], Or.inl rfl⟩
          · exact Or.inl hk
        · have haidSome : (mapGet m aid).isSome := by
            by_cases h2 : aid = goal.scorerId
            · rw [h2, hsc]
              rfl
            · rw [mapGet_mapUpdate] at hma
              rw [if_neg h2] at hma
              rw [mapGet_mapUpdate] at hma
              rw [if_neg h2] at hma
              rw [hma]
              rfl
          by_cases hingA : aid ∈ goal.scorerId :: ing <;>
            simp only [hingA, if_true, if_false, ite_true, ite_false] <;> intro k hk
          · rcases List.mem_cons.mp hk with rfl | hk
            · exact Or.inr ⟨by simp [hsc], Or.inl rfl⟩
            · exact Or.inl hk
          · rcases List.mem_cons.mp hk with rfl | hk
            · exact Or.inr ⟨haidSome, Or.inr rfl⟩
            · rcases List.mem_cons.mp hk with rfl | hk
              · exact Or.inr ⟨by simp [hsc], Or.inl rfl⟩
              · exact Or.inl hk

/-- "Never credited a goal or assist without game-played credit". -/
def Qc (r : PSRec) : Prop := 0 < r.goals + r.assists → 0 < r.gamesPlayed

theorem applyResult_fields (t : Team) (cg wg : Nat) (r : PSRec) :
    (applyResult t cg wg r).goals = r.goals ∧ (applyResult t cg wg r).assists = r.assists ∧
    (applyResult t cg wg r).gamesPlayed = r.gamesPlayed + 1 := by
  unfold applyResult
  split_ifs <;> simp

theorem mapGet_mapSet {k k2 : String} {v : β} :
    ∀ {m : List (String × β)},
      mapGet (mapSet m k v) k2 = if k2 = k then some v else mapGet m k2 := by
  intro m
  induction m with
  | nil =>
    by_cases h : k2 = k
    · subst h
      simp [mapSet, mapGet]
    · simp [mapSet, mapGet, h, Ne.symm h]
  | cons e rest ih =>
    obtain ⟨ek, ev⟩ := e
    by_cases h1 : ek = k
    · subst h1
      by_cases h2 : k2 = ek
      · subst h2
        simp [mapSet, mapGet]
      · simp [mapSet, mapGet, h2, Ne.symm h2]
    · by_cases h2 : k2 = k
      · subst h2
        simp [mapSet, mapGet, h1, ih, Ne.symm h1]
      · by_cases h3 : ek = k2
        · subst h3
          simp [mapSet, mapGet, h1, h2]
        · simp [mapSet, mapGet, h1, h2, h3, ih]

theorem processGoal_GQ (m : List (String × PSRec)) (ing : List String) (goal : Goal)
    (h1 : ∀ pid r, mapGet m pid = some r → Qc r)
    (h2 : ∀ pid r, pid ∈ ing → mapGet m pid = some r → 0 < r.gamesPlayed) :
    (∀ pid r, mapGet (processGoal (m, ing) goal).1 pid = some r → Qc r) ∧
    (∀ pid r, pid ∈ (processGoal (m, ing) goal).2 →
      mapGet (processGoal (m, ing) goal).1 pid = some r → 0 < r.gamesPlayed) := by
  rcases hsck : mapGet m goal.scorerId with _ | v
  · rw [processGoal_scorer_unknown hsck]
    exact ⟨h1, h2⟩
  have hk : (mapGet m goal.scorerId).isSome := by rw [hsck]; rfl
  constructor
  · intro pid r hr
    rcases hold : mapGet m pid with _ | r0
    · rw [processGoal_get_none hold] at hr
      cases hr
    · rw [processGoal_get hold] at hr
      injection hr with hr
      subst hr
      unfold specGoalCredit
      rw [if_pos hk]
      intro hpos
      dsimp only at hpos ⊢
      by_cases hcred : (pid = goal.scorerId ∨ goal.assisterId = some pid) ∧ pid ∉ ing
      · rw [if_pos hcred]
        omega
      · rw [if_neg hcred]
        by_cases hwhich : pid = goal.scorerId ∨ goal.assisterId = some pid
        · have hin : pid ∈ ing := by
            by_cases hi : pid ∈ ing
            · exact hi
            · exact absurd ⟨hwhich, hi⟩ hcred
          have := h2 pid r0 hin hold
          omega
        · have hs : ¬ pid = goal.scorerId := fun h => hwhich (Or.inl h)
          have ha : ¬ goal.assisterId = some pid := fun h => hwhich (Or.inr h)
          rw [if_neg hs, if_neg ha] at hpos
          have := h1 pid r0 hold
          unfold Qc at this
          omega
  · intro pid r hin hr
    rcases hold : mapGet m pid with _ | r0
    · rw [processGoal_get_none hold] at hr
      cases hr
    · rw [processGoal_get hold] at hr
      injection hr with hr
      subst hr
      unfold specGoalCredit
      rw [if_pos hk]
      dsimp only
      rcases processGoal_ing pid hin with hing | ⟨-, hwhich⟩
      · have := h2 pid r0 hing hold
        have hnc : ¬ ((pid = goal.scorerId ∨ goal.assisterId = some pid) ∧ pid ∉ ing) := by
          intro hc
          exact hc.2 hing
        rw [if_neg hnc]
        omega
      · by_cases hi : pid ∈ ing
        · have := h2 pid r0 hi hold
          have hnc : ¬ ((pid = goal.scorerId ∨ goal.assisterId = some pid) ∧ pid ∉ ing) := by
            intro hc
            exact hc.2 hi
          rw [if_neg hnc]
          omega
        · rw [if_pos ⟨hwhich, hi⟩]
          omega

theorem processAssignment_GQ {cg wg : Nat} {acc : List (String × PSRec) × List String}
    {pt : String × Team}
    (h1 : ∀ pid r, mapGet acc.1 pid = some r → Qc r)
    (h2 : ∀ pid r, pid ∈ acc.2 → mapGet acc.1 pid = some r → 0 < r.gamesPlayed) :
    (∀ pid r, mapGet (processAssignment cg wg acc pt).1 pid = some r → Qc r) ∧
    (∀ pid r, pid ∈ (processAssignment cg wg acc pt).2 →
      mapGet (processAssignment cg wg acc pt).1 pid = some r → 0 < r.gamesPlayed) := by
  unfold processAssignment
  rcases hg : mapGet acc.1 pt.1 with _ | v
  · exact ⟨h1, h2⟩
  dsimp only
  constructor
  · intro pid r hr
    rw [mapGet_mapUpdate] at hr
    by_cases hp : pid = pt.1
    · rw [if_pos hp, hg] at hr
      injection hr with hr
      subst hr
      obtain ⟨-, -, hgp⟩ := applyResult_fields pt.2 cg wg v
      intro hpos
      omega
    · rw [if_neg hp] at hr
      exact h1 pid r hr
  · intro pid r hin hr
    rw [mapGet_mapUpdate] at hr
    by_cases hp : pid = pt.1
    · rw [if_pos hp, hg] at hr
      injection hr with hr
      subst hr
      obtain ⟨-, -, hgp⟩ := applyResult_fields pt.2 cg wg v
      omega
    · rw [if_neg hp] at hr
      rcases List.mem_cons.mp hin with rfl | hin2
      · exact absurd rfl hp
      · exact h2 pid r hin2 hr

theorem assignFold_GQ {cg wg : Nat} :
    ∀ (ta : List (String × Team)) (acc : List (String × PSRec) × List String),
      (∀ pid r, mapGet acc.1 pid = some r → Qc r) →
      (∀ pid r, pid ∈ acc.2 → mapGet acc.1 pid = some r → 0 < r.gamesPlayed) →
      (∀ pid r, mapGet ((ta.foldl (processAssignment cg wg) acc).1) pid = some r → Qc r) ∧
      (∀ pid r, pid ∈ (ta.foldl (processAssignment cg wg) acc).2 →
        mapGet ((ta.foldl (processAssignment cg wg) acc).1) pid = some r →
        0 < r.gamesPlayed) := by
  intro ta
  induction ta with
  | nil => intro acc h1 h2; exact ⟨h1, h2⟩
  | cons pt rest ih =>
    intro acc h1 h2
    obtain ⟨g1, g2⟩ := processAssignment_GQ h1 h2
    exact ih _ g1 g2

theorem goalFold_GQ :
    ∀ (gls : List Goal) (acc : List (String × PSRec) × List String),
      (∀ pid r, mapGet acc.1 pid = some r → Qc r) →
      (∀ pid r, pid ∈ acc.2 → mapGet acc.1 pid = some r → 0 < r.gamesPlayed) →
      ∀ pid r, mapGet ((gls.foldl processGoal acc).1) pid = some r → Qc r := by
  intro gls
  induction gls with
  | nil => intro acc h1 _; exact h1
  | cons g rest ih =>
    intro acc h1 h2
    obtain ⟨g1, g2⟩ := processGoal_GQ acc.1 acc.2 g h1 h2
    exact ih _ g1 g2

theorem processGame_Q {m : List (String × PSRec)} {g : Game}
    (h1 : ∀ pid r, mapGet m pid = some r → Qc r) :
    ∀ pid r, mapGet (processGame m g) pid = some r → Qc r := by
  unfold processGame
  rcases g.teamAssignments with _ | ta
  · exact h1
  rcases g.goals with _ | gls
  · exact h1
  dsimp only
  obtain ⟨a1, a2⟩ := assignFold_GQ ta (m, []) h1 (fun pid r hin => by cases hin)
  exact goalFold_GQ gls _ a1 a2

theorem statsInit_Q (ps : List Player) :
    ∀ pid r, mapGet (statsInit ps) pid = some r → Qc r := by
  unfold statsInit
  suffices hgen : ∀ (l : List Player) (m : List (String × PSRec)),
      (∀ pid r, mapGet m pid = some r → Qc r) →
      ∀ pid r, mapGet (l.foldl (fun m p => mapSet m p.id (PSRec.init p)) m) pid = some r →
        Qc r by
    exact hgen ps [] (fun pid r hr => by cases hr)
  intro l
  induction l with
  | nil => intro m h; exact h
  | cons p rest ih =>
    intro m h
    refine ih _ ?_
    intro pid r hr
    rw [mapGet_mapSet] at hr
    by_cases hp : pid = p.id
    · rw [if_pos hp] at hr
      injection hr with hr
      subst hr
      intro hpos
      simp [PSRec.init] at hpos
    · rw [if_neg hp] at hr
      exact h pid r hr

theorem gamesFold_Q (ps : List Player) :
    ∀ (gs : List Game) (m : List (String × PSRec)),
      (∀ pid r, mapGet m pid = some r → Qc r) →
      ∀ pid r, mapGet (gs.foldl processGame m) pid = some r → Qc r := by
  intro gs
  induction gs with
  | nil => intro m h; exact h
  | cons g rest ih => intro m h; exact ih _ (processGame_Q h)


/-- Fixture: a goal whose scorer id is absent from the player list but whose
assister P1 is present (and assigned, so P1 appears in the output table). -/
def c4Game : Game :=
  { id := "g", createdAt := 5, teamAssignments := some [("p1", Team.color)]
    goals := some
      [{ scorerId := "ghost", assisterId := some "p1", timestamp := 1, team := some Team.color }] }

/-- **Counterexample to C4 as stated.** The goal's scorer id "ghost" is absent
from the player list while the assister P1 is present; the claim says P1's
assist is still credited, but the early return that drops the unknown scorer
also skips the assist: P1 ends with 0 assists. -/
theorem goal_crediting_cex :
    (∀ p ∈ [P1], p.id ≠ "ghost") ∧
    c4Game.goals = some
      [{ scorerId := "ghost", assisterId := some "p1", timestamp := 1, team := some Team.color }] ∧
    (playerStats [P1] [c4Game]).map (fun r => (r.player.id, r.goals, r.assists)) =
      [("p1", 0, 0)] := by
  refine ⟨by decide, rfl, by decide⟩

/-- **C4 (amended).** For every goal of a counted game: when the scorer id is
absent from the stats map (the player list), the whole goal — including its
assist — is silently dropped and the state is unchanged; when the scorer is
present, the scorer gains +1 goal, a present assister gains +1 assist, and a
credited player not already counted for this game gains one gamesPlayed
(`specGoalCredit`); ids absent from the player list never gain a row; and
over the whole fold a player is never credited a goal or assist without
game-played credit. The embedding is total, so the aggregator never throws. -/
theorem goal_crediting :
    (∀ (m : List (String × PSRec)) (ing : List String) (goal : Goal),
      mapGet m goal.scorerId = none → processGoal (m, ing) goal = (m, ing)) ∧
    (∀ (m : List (String × PSRec)) (ing : List String) (goal : Goal) (pid : String) (r : PSRec),
      mapGet m pid = some r →
      mapGet (processGoal (m, ing) goal).1 pid = some (specGoalCredit m ing goal pid r)) ∧
    (∀ (m : List (String × PSRec)) (ing : List String) (goal : Goal) (pid : String),
      mapGet m pid = none → mapGet (processGoal (m, ing) goal).1 pid = none) ∧
    (∀ (ps : List Player) (gs : List Game) (pid : String) (r : PSRec),
      mapGet (gs.foldl processGame (statsInit ps)) pid = some r →
      0 < r.goals + r.assists → 0 < r.gamesPlayed) :=
  ⟨fun _ _ _ h => processGoal_scorer_unknown h,
   fun _ _ _ _ _ h => processGoal_get h,
   fun _ _ _ _ h => processGoal_get_none h,
   fun ps gs pid r h => gamesFold_Q ps gs _ (statsInit_Q ps) pid r h⟩

/-- Witness for C4: the crediting formula applied to one concrete goal. -/
theorem goal_crediting_witness :
    mapGet (processGoal ([("p1", PSRec.init P1), ("p2", PSRec.init P2)], [])
        { scorerId := "p2", assisterId := some "p1", timestamp := 2, team := some Team.white }).1
        "p1" =
      some (specGoalCredit [("p1", PSRec.init P1), ("p2", PSRec.init P2)] []
        { scorerId := "p2", assisterId := some "p1", timestamp := 2, team := some Team.white }
        "p1" (PSRec.init P1)) :=
  goal_crediting.2.1 _ _ _ _ _ (by decide)

end Awty
